import Mathlib

/-!
Verification development for the reqline parser/executor.

The JavaScript sources are embedded shallowly over `List Char`:
strings are modelled by their character lists, the JS string methods
(`trim`, `split`, `indexOf`, `startsWith`, `endsWith`, `substring`,
`toUpperCase`, `includes`) by hand-written list functions with the same
semantics, `JSON.parse` by a fuel-based recursive-descent parser of the
JSON grammar, `encodeURIComponent` by UTF-8 percent-encoding with the
standard unreserved set, and thrown application errors by
`Except AppError`.  Numbers inside JSON values are kept as their source
literals (exact for the integer literals exercised here); case
conversion models `toUpperCase` on ASCII letters, which covers every
keyword and method the validator compares.
-/

namespace Reqline

/-- Error codes of the throwAppError helper: the validator always throws
VALIDATIONERR, the executor throws APPERR for transport failures. -/
inductive ErrorCode where
  | VALIDATIONERR
  | APPERR
deriving DecidableEq

/-- An application error: a code together with the human-readable message. -/
structure AppError where
  code : ErrorCode
  message : String
deriving DecidableEq

/-- Centralized error messages (ReqlineMessages module). -/
def MISSING_HTTP_KEYWORD : String := "Missing required HTTP keyword"

def MISSING_URL_KEYWORD : String := "Missing required URL keyword"

def INVALID_HTTP_METHOD : String := "Invalid HTTP method. Only GET and POST are supported"

def HTTP_METHOD_MUST_BE_UPPERCASE : String := "HTTP method must be uppercase"

def KEYWORDS_MUST_BE_UPPERCASE : String := "Keywords must be uppercase"

def MISSING_SPACE_AFTER_KEYWORD : String := "Missing space after keyword"

def MULTIPLE_SPACES_FOUND : String := "Multiple spaces found where single space expected"

def INVALID_SPACING_AROUND_PIPE : String := "Invalid spacing around pipe delimiter"

def INVALID_JSON_FORMAT_HEADERS : String := "Invalid JSON format in HEADERS section"

def INVALID_JSON_FORMAT_QUERY : String := "Invalid JSON format in QUERY section"

def INVALID_JSON_FORMAT_BODY : String := "Invalid JSON format in BODY section"

def EMPTY_REQLINE : String := "Reqline string cannot be empty"

def HTTP_MUST_BE_FIRST : String := "HTTP keyword must be first"

def URL_MUST_BE_SECOND : String := "URL keyword must be second"

def DUPLICATE_HTTP_KEYWORD : String := "HTTP keyword can only appear once"

def DUPLICATE_URL_KEYWORD : String := "URL keyword can only appear once"

def INVALID_URL_FORMAT : String := "Invalid URL format"

def UNKNOWN_KEYWORD : String := "Unknown keyword found"

def MISSING_PIPE_DELIMITER : String := "Missing pipe delimiter"

/-- Whitespace recognised by the JS `trim` (the characters relevant here). -/
def jsWhite (c : Char) : Bool :=
  c = ' ' || c = '\t' || c = '\n' || c = '\r' || c = '\x0b' || c = '\x0c' || c = ' '

/-- Model of `String.prototype.trim`: drop whitespace from both ends. -/
def trimChars (l : List Char) : List Char :=
  ((l.dropWhile jsWhite).reverse.dropWhile jsWhite).reverse

/-- Model of `String.prototype.split` with a single-character separator:
splits at every occurrence, keeping empty pieces. -/
def splitOnChar (sep : Char) : List Char → List (List Char)
  | [] => [[]]
  | c :: rest =>
    match splitOnChar sep rest with
    | [] => [[]]
    | s :: ss => if c = sep then [] :: s :: ss else (c :: s) :: ss

/-- Model of `startsWith(' ')`: the first character is a space. -/
def startsWithSpace : List Char → Bool
  | ' ' :: _ => true
  | _ => false

/-- Model of `endsWith(' ')`: the last character is a space. -/
def endsWithSpace (l : List Char) : Bool :=
  startsWithSpace l.reverse

/-- Model of `segment.indexOf(' ')` followed by the two `substring` calls:
returns the part before the first space and the part after it. -/
def splitAtFirstSpace : List Char → Option (List Char × List Char)
  | [] => none
  | c :: rest =>
    if c = ' ' then some ([], rest)
    else
      match splitAtFirstSpace rest with
      | none => none
      | some (k, v) => some (c :: k, v)

/-- Model of `segment.indexOf('  ') !== -1`: a run of two spaces occurs. -/
def hasDoubleSpace : List Char → Bool
  | c1 :: c2 :: rest => (c1 = ' ' && c2 = ' ') || hasDoubleSpace (c2 :: rest)
  | _ => false

/-- JSON values as produced by `JSON.parse`.  Numbers keep their source
literal text; object members keep insertion order with later duplicate
keys overwriting in place, as in JS. -/
inductive Json where
  | null
  | bool (b : Bool)
  | num (lit : String)
  | str (s : String)
  | arr (elems : List Json)
  | obj (members : List (String × Json))

/-- JSON insignificant whitespace. -/
def jsonWs (c : Char) : Bool :=
  c = ' ' || c = '\t' || c = '\n' || c = '\r'

/-- Drop leading JSON whitespace. -/
def skipWs (cs : List Char) : List Char :=
  cs.dropWhile jsonWs

/-- ASCII digit test. -/
def isDigitChar (c : Char) : Bool :=
  '0' ≤ c && c ≤ '9'

/-- Value of a hexadecimal digit. -/
def hexVal (c : Char) : Option Nat :=
  if '0' ≤ c && c ≤ '9' then some (c.toNat - 48)
  else if 'a' ≤ c && c ≤ 'f' then some (c.toNat - 87)
  else if 'A' ≤ c && c ≤ 'F' then some (c.toNat - 55)
  else none

/-- The fractional part of a JSON number literal, possibly empty. -/
def parseFracPart (cs : List Char) : Option (List Char × List Char) :=
  match cs with
  | '.' :: rest =>
    let ds := rest.takeWhile isDigitChar
    if ds = [] then none else some ('.' :: ds, rest.dropWhile isDigitChar)
  | _ => some ([], cs)

/-- The exponent part of a JSON number literal, possibly empty. -/
def parseExpPart (cs : List Char) : Option (List Char × List Char) :=
  match cs with
  | c :: rest =>
    if c = 'e' || c = 'E' then
      match rest with
      | s :: rest1 =>
        if s = '+' || s = '-' then
          let ds := rest1.takeWhile isDigitChar
          if ds = [] then none else some (c :: s :: ds, rest1.dropWhile isDigitChar)
        else
          let ds := rest.takeWhile isDigitChar
          if ds = [] then none else some (c :: ds, rest.dropWhile isDigitChar)
      | [] => none
    else some ([], c :: rest)
  | [] => some ([], [])

/-- A JSON number literal: optional sign, integer part without leading
zeros, optional fraction and exponent.  Returns the literal characters
and the rest of the input. -/
def parseNumLit (cs : List Char) : Option (List Char × List Char) :=
  let (sign, cs1) :=
    match cs with
    | '-' :: rest => (['-'], rest)
    | _ => (([] : List Char), cs)
  match cs1 with
  | '0' :: rest =>
    match parseFracPart rest with
    | none => none
    | some (f, rest1) =>
      match parseExpPart rest1 with
      | none => none
      | some (e, rest2) => some (sign ++ '0' :: f ++ e, rest2)
  | c :: rest =>
    if isDigitChar c && c ≠ '0' then
      let ds := rest.takeWhile isDigitChar
      let rest0 := rest.dropWhile isDigitChar
      match parseFracPart rest0 with
      | none => none
      | some (f, rest1) =>
        match parseExpPart rest1 with
        | none => none
        | some (e, rest2) => some (sign ++ c :: ds ++ f ++ e, rest2)
    else none
  | [] => none

/-- The body of a JSON string after the opening quote: decoded characters
and the rest of the input after the closing quote. -/
def parseStrBody : List Char → Option (List Char × List Char)
  | [] => none
  | '"' :: rest => some ([], rest)
  | '\\' :: e :: rest =>
    if e = 'u' then
      match rest with
      | a :: b :: c :: d :: rest1 =>
        match hexVal a, hexVal b, hexVal c, hexVal d with
        | some ha, some hb, some hc, some hd =>
          match parseStrBody rest1 with
          | none => none
          | some (s, r) =>
            some (Char.ofNat (((ha * 16 + hb) * 16 + hc) * 16 + hd) :: s, r)
        | _, _, _, _ => none
      | _ => none
    else
      match
        (if e = '"' then some '"'
         else if e = '\\' then some '\\'
         else if e = '/' then some '/'
         else if e = 'b' then some '\x08'
         else if e = 'f' then some '\x0c'
         else if e = 'n' then some '\n'
         else if e = 'r' then some '\r'
         else if e = 't' then some '\t'
         else none) with
      | none => none
      | some d =>
        match parseStrBody rest with
        | none => none
        | some (s, r) => some (d :: s, r)
  | c :: rest =>
    if c.toNat < 32 then none
    else
      match parseStrBody rest with
      | none => none
      | some (s, r) => some (c :: s, r)

/-- Assignment of an object member, JS-style: an existing key is updated
in place, a new key is appended. -/
def setObjKey (acc : List (String × Json)) (k : String) (v : Json) :
    List (String × Json) :=
  if acc.any (fun kv => kv.1 = k) then
    acc.map (fun kv => if kv.1 = k then (k, v) else kv)
  else acc ++ [(k, v)]

mutual

/-- One JSON value, consuming leading whitespace; fuel bounds recursion depth. -/
def jvalue (fuel : Nat) (cs : List Char) : Option (Json × List Char) :=
  match fuel with
  | 0 => none
  | fuel + 1 =>
    match skipWs cs with
    | 'n' :: 'u' :: 'l' :: 'l' :: rest => some (.null, rest)
    | 't' :: 'r' :: 'u' :: 'e' :: rest => some (.bool true, rest)
    | 'f' :: 'a' :: 'l' :: 's' :: 'e' :: rest => some (.bool false, rest)
    | '"' :: rest =>
      match parseStrBody rest with
      | some (s, rest1) => some (.str (String.mk s), rest1)
      | none => none
    | '[' :: rest => jarray fuel rest
    | '{' :: rest => jobject fuel rest
    | other =>
      match parseNumLit other with
      | some (lit, rest) => some (.num (String.mk lit), rest)
      | none => none

/-- The inside of a JSON array after the opening bracket. -/
def jarray (fuel : Nat) (cs : List Char) : Option (Json × List Char) :=
  match fuel with
  | 0 => none
  | fuel + 1 =>
    match skipWs cs with
    | ']' :: rest => some (.arr [], rest)
    | other => jarrayElems fuel other []

/-- Comma-separated array elements up to the closing bracket. -/
def jarrayElems (fuel : Nat) (cs : List Char) (acc : List Json) :
    Option (Json × List Char) :=
  match fuel with
  | 0 => none
  | fuel + 1 =>
    match jvalue fuel cs with
    | none => none
    | some (v, rest) =>
      match skipWs rest with
      | ',' :: rest1 => jarrayElems fuel rest1 (acc ++ [v])
      | ']' :: rest1 => some (.arr (acc ++ [v]), rest1)
      | _ => none

/-- The inside of a JSON object after the opening brace. -/
def jobject (fuel : Nat) (cs : List Char) : Option (Json × List Char) :=
  match fuel with
  | 0 => none
  | fuel + 1 =>
    match skipWs cs with
    | '}' :: rest => some (.obj [], rest)
    | other => jobjectMembers fuel other []

/-- Comma-separated key/value members up to the closing brace. -/
def jobjectMembers (fuel : Nat) (cs : List Char) (acc : List (String × Json)) :
    Option (Json × List Char) :=
  match fuel with
  | 0 => none
  | fuel + 1 =>
    match skipWs cs with
    | '"' :: rest =>
      match parseStrBody rest with
      | none => none
      | some (k, rest1) =>
        match skipWs rest1 with
        | ':' :: rest2 =>
          match jvalue fuel rest2 with
          | none => none
          | some (v, rest3) =>
            match skipWs rest3 with
            | ',' :: rest4 => jobjectMembers fuel rest4 (setObjKey acc (String.mk k) v)
            | '}' :: rest4 => some (.obj (setObjKey acc (String.mk k) v), rest4)
            | _ => none
        | _ => none
    | _ => none

end

/-- Model of `JSON.parse` on a character list: one value surrounded by
optional whitespace, nothing else. -/
def jsonParseChars (cs : List Char) : Option Json :=
  match jvalue (3 * cs.length + 8) cs with
  | some (j, rest) => if skipWs rest = [] then some j else none
  | none => none

/-- Model of `JSON.parse` on a string. -/
def jsonParse (s : String) : Option Json :=
  jsonParseChars s.data

/-- The structured request produced by the validator (ReqlineValidator):
`method` and `url` start as null, the three JSON fields start as `{}`. -/
structure ParsedRequest where
  method : Option String
  url : Option String
  headers : Json
  query : Json
  body : Json

/-- The keyword/value pair of one segment (parseSegmentParts result). -/
structure SegmentParts where
  keyword : List Char
  value : List Char
deriving DecidableEq

/-- Model of ReqlineValidator.splitByPipe: without a pipe, run the
keyword-presence diagnostics; with one, split on the pipe, check the
spacing around every pipe, and trim each segment. -/
def checkSpacingAt (total : Nat) : Nat → List (List Char) → Except AppError Unit
  | _, [] => .ok ()
  | i, seg :: rest =>
    if 0 < i ∧ startsWithSpace seg = false then
      .error ⟨.VALIDATIONERR, INVALID_SPACING_AROUND_PIPE⟩
    else if i < total - 1 ∧ endsWithSpace seg = false then
      .error ⟨.VALIDATIONERR, INVALID_SPACING_AROUND_PIPE⟩
    else checkSpacingAt total (i + 1) rest

/-- Model of ReqlineValidator.splitByPipe. -/
def splitByPipe (str : List Char) : Except AppError (List (List Char)) :=
  if !(str.contains '|') then
    if !((splitOnChar ' ' str).contains ("HTTP".data) ||
         (splitOnChar ' ' str).contains ("http".data)) then
      .error ⟨.VALIDATIONERR, MISSING_HTTP_KEYWORD⟩
    else if !((splitOnChar ' ' str).contains ("URL".data) ||
              (splitOnChar ' ' str).contains ("url".data)) then
      .error ⟨.VALIDATIONERR, MISSING_URL_KEYWORD⟩
    else .error ⟨.VALIDATIONERR, MISSING_PIPE_DELIMITER⟩
  else
    match checkSpacingAt (splitOnChar '|' str).length 0 (splitOnChar '|' str) with
    | .error e => .error e
    | .ok _ => .ok ((splitOnChar '|' str).map trimChars)

/-- Model of ReqlineValidator.parseSegmentParts: split at the first
space, check the keyword is uppercase, reject any double space. -/
def parseSegmentParts (segment : List Char) : Except AppError SegmentParts :=
  match splitAtFirstSpace segment with
  | none => .error ⟨.VALIDATIONERR, MISSING_SPACE_AFTER_KEYWORD⟩
  | some (keyword, value) =>
    if keyword ≠ keyword.map Char.toUpper then
      .error ⟨.VALIDATIONERR, KEYWORDS_MUST_BE_UPPERCASE⟩
    else if hasDoubleSpace segment then
      .error ⟨.VALIDATIONERR, MULTIPLE_SPACES_FOUND⟩
    else .ok ⟨keyword, value⟩

/-- Model of ReqlineValidator.validateHttpMethod. -/
def validateHttpMethod (method : List Char) : Except AppError Unit :=
  if method ≠ method.map Char.toUpper then
    .error ⟨.VALIDATIONERR, HTTP_METHOD_MUST_BE_UPPERCASE⟩
  else if !([("GET".data), ("POST".data)].contains method) then
    .error ⟨.VALIDATIONERR, INVALID_HTTP_METHOD⟩
  else .ok ()

/-- Position of the first occurrence of a substring (indexOf on lists). -/
def indexOfSeq (pat : List Char) : List Char → Option Nat
  | [] => if pat = [] then some 0 else none
  | c :: rest =>
    if pat.isPrefixOf (c :: rest) then some 0
    else
      match indexOfSeq pat rest with
      | none => none
      | some i => some (i + 1)

/-- Model of ReqlineValidator.validateUrl.  The JS `typeof` half of the
first guard is not representable in the typed embedding (the argument is
always a string here); the emptiness half is kept. -/
def validateUrl (url : List Char) : Except AppError Unit :=
  if url = [] then .error ⟨.VALIDATIONERR, INVALID_URL_FORMAT⟩
  else if !(("http://".data).isPrefixOf url) && !(("https://".data).isPrefixOf url) then
    .error ⟨.VALIDATIONERR, INVALID_URL_FORMAT⟩
  else
    match indexOfSeq ("://".data) url with
    | none => .error ⟨.VALIDATIONERR, INVALID_URL_FORMAT⟩
    | some i =>
      if url.length ≤ i + 3 then .error ⟨.VALIDATIONERR, INVALID_URL_FORMAT⟩
      else .ok ()

/-- Modelled from the spec: validateUrl with its initial empty-value
guard removed, used only to state that the guard is unreachable when the
validator calls validateUrl (claim C10); the remaining checks follow the
spec sentence that the value must start with http:// or https:// and
have non-empty content after the scheme. -/
def validateUrlAssumingValue (url : List Char) : Except AppError Unit :=
  if !(("http://".data).isPrefixOf url) && !(("https://".data).isPrefixOf url) then
    .error ⟨.VALIDATIONERR, INVALID_URL_FORMAT⟩
  else
    match indexOfSeq ("://".data) url with
    | none => .error ⟨.VALIDATIONERR, INVALID_URL_FORMAT⟩
    | some i =>
      if url.length ≤ i + 3 then .error ⟨.VALIDATIONERR, INVALID_URL_FORMAT⟩
      else .ok ()

/-- Message chosen by parseJsonValue through the dynamic
`INVALID_JSON_FORMAT_<fieldName>` lookup. -/
def invalidJsonMessageFor (fieldName : String) : String :=
  if fieldName = "HEADERS" then INVALID_JSON_FORMAT_HEADERS
  else if fieldName = "QUERY" then INVALID_JSON_FORMAT_QUERY
  else if fieldName = "BODY" then INVALID_JSON_FORMAT_BODY
  else "undefined"

/-- Model of ReqlineValidator.parseJsonValue: JSON.parse the value, or
fail with the keyword-specific message. -/
def parseJsonValue (value : List Char) (fieldName : String) : Except AppError Json :=
  match jsonParseChars value with
  | some j => .ok j
  | none => .error ⟨.VALIDATIONERR, invalidJsonMessageFor fieldName⟩

/-- The mutable state of the parseSegments forEach loop: the result
object under construction plus the httpFound/urlFound flags. -/
structure PState where
  method : Option String
  url : Option String
  headers : Json
  query : Json
  body : Json
  httpFound : Bool
  urlFound : Bool

/-- The initial parseSegments state. -/
def initState : PState :=
  ⟨none, none, .obj [], .obj [], .obj [], false, false⟩

/-- The body of the parseSegments forEach for one segment at one index. -/
def processSegment (st : PState) (index : Nat) (seg : List Char) :
    Except AppError PState :=
  if seg = [] then .error ⟨.VALIDATIONERR, INVALID_SPACING_AROUND_PIPE⟩
  else
    match parseSegmentParts seg with
    | .error e => .error e
    | .ok parts =>
      if parts.keyword = "HTTP".data then
        if st.httpFound = true then .error ⟨.VALIDATIONERR, DUPLICATE_HTTP_KEYWORD⟩
        else if index ≠ 0 then .error ⟨.VALIDATIONERR, HTTP_MUST_BE_FIRST⟩
        else
          match validateHttpMethod parts.value with
          | .error e => .error e
          | .ok _ => .ok { st with method := some (String.mk parts.value), httpFound := true }
      else if parts.keyword = "URL".data then
        if st.urlFound = true then .error ⟨.VALIDATIONERR, DUPLICATE_URL_KEYWORD⟩
        else if index ≠ 1 then .error ⟨.VALIDATIONERR, URL_MUST_BE_SECOND⟩
        else
          match validateUrl parts.value with
          | .error e => .error e
          | .ok _ => .ok { st with url := some (String.mk parts.value), urlFound := true }
      else if parts.keyword = "HEADERS".data then
        match parseJsonValue parts.value ("HEADERS") with
        | .error e => .error e
        | .ok j => .ok { st with headers := j }
      else if parts.keyword = "QUERY".data then
        match parseJsonValue parts.value ("QUERY") with
        | .error e => .error e
        | .ok j => .ok { st with query := j }
      else if parts.keyword = "BODY".data then
        match parseJsonValue parts.value ("BODY") with
        | .error e => .error e
        | .ok j => .ok { st with body := j }
      else .error ⟨.VALIDATIONERR, UNKNOWN_KEYWORD⟩

/-- The parseSegments forEach loop over the segments with their indices. -/
def parseSegmentsLoop : PState → Nat → List (List Char) → Except AppError PState
  | st, _, [] => .ok st
  | st, i, seg :: rest =>
    match processSegment st i seg with
    | .error e => .error e
    | .ok st1 => parseSegmentsLoop st1 (i + 1) rest

/-- Model of ReqlineValidator.parseSegments: run the loop, then check
that HTTP and URL were seen. -/
def parseSegments (segments : List (List Char)) : Except AppError ParsedRequest :=
  match parseSegmentsLoop initState 0 segments with
  | .error e => .error e
  | .ok st =>
    if st.httpFound = false then .error ⟨.VALIDATIONERR, MISSING_HTTP_KEYWORD⟩
    else if st.urlFound = false then .error ⟨.VALIDATIONERR, MISSING_URL_KEYWORD⟩
    else .ok ⟨st.method, st.url, st.headers, st.query, st.body⟩

/-- Model of ReqlineValidator.parseReqlineSyntax: trim, reject the empty
string, split by pipe, parse the segments. -/
def parseReqlineSyntax (s : String) : Except AppError ParsedRequest :=
  if trimChars s.data = [] then .error ⟨.VALIDATIONERR, EMPTY_REQLINE⟩
  else
    match splitByPipe (trimChars s.data) with
    | .error e => .error e
    | .ok segments => parseSegments segments

/-- Unreserved characters of `encodeURIComponent`, passed through as-is. -/
def uriUnescaped (c : Char) : Bool :=
  ('A' ≤ c && c ≤ 'Z') || ('a' ≤ c && c ≤ 'z') || ('0' ≤ c && c ≤ '9') ||
  c = '-' || c = '_' || c = '.' || c = '!' || c = '~' || c = '*' ||
  c = '(' || c = ')' || c = '\''

/-- Uppercase hexadecimal digit of a value below 16. -/
def hexDigitChar (n : Nat) : Char :=
  if n < 10 then Char.ofNat (48 + n) else Char.ofNat (55 + n)

/-- UTF-8 bytes of one character. -/
def utf8BytesOf (c : Char) : List Nat :=
  let n := c.toNat
  if n < 128 then [n]
  else if n < 2048 then [192 + n / 64, 128 + n % 64]
  else if n < 65536 then [224 + n / 4096, 128 + (n / 64) % 64, 128 + n % 64]
  else [240 + n / 262144, 128 + (n / 4096) % 64, 128 + (n / 64) % 64, 128 + n % 64]

/-- One character of `encodeURIComponent` output: unreserved characters
pass through, everything else is percent-encoded byte by byte. -/
def encodeChar (c : Char) : List Char :=
  if uriUnescaped c then [c]
  else ((utf8BytesOf c).map (fun b => ['%', hexDigitChar (b / 16), hexDigitChar (b % 16)])).flatten

/-- Model of the JS `encodeURIComponent` builtin. -/
def encodeURIComponent (s : String) : String :=
  String.mk ((s.data.map encodeChar).flatten)

mutual

/-- JS template-literal coercion of a JSON value to a string. -/
def jsToString : Json → String
  | .null => "null"
  | .bool b => cond b ("true") ("false")
  | .num lit => lit
  | .str s => s
  | .obj _ => "[object Object]"
  | .arr xs => jsListToString xs

/-- JS `Array.prototype.toString`: elements joined with commas. -/
def jsListToString : List Json → String
  | [] => ""
  | [j] => jsElemToString j
  | j :: rest => jsElemToString j ++ "," ++ jsListToString rest

/-- One array element in `Array.prototype.toString`: null renders empty. -/
def jsElemToString : Json → String
  | .null => ""
  | .bool b => cond b ("true") ("false")
  | .num lit => lit
  | .str s => s
  | .obj _ => "[object Object]"
  | .arr xs => jsListToString xs

end

/-- JS truthiness of a JSON value. -/
def numLitIsZero (lit : String) : Bool :=
  let mant := lit.data.takeWhile (fun c => c ≠ 'e' && c ≠ 'E')
  (mant.filter (fun c => c ≠ '-' && c ≠ '.')).all (fun c => c = '0')

/-- JS truthiness of a JSON value (`!x` in the source). -/
def jsonTruthy : Json → Bool
  | .null => false
  | .bool b => b
  | .num lit => !(numLitIsZero lit)
  | .str s => !(s.data = [])
  | .arr _ => true
  | .obj _ => true

/-- Model of `Object.entries` (and, up to values, `Object.keys`) on the
values the query field can hold: own enumerable entries of objects,
index/element pairs for arrays and strings, nothing for primitives. -/
def jsObjectEntries : Json → List (String × Json)
  | .obj kvs => kvs
  | .arr xs => xs.enum.map (fun p => (toString p.1, p.2))
  | .str s => s.data.enum.map (fun p => (toString p.1, .str (String.mk [p.2])))
  | _ => []

/-- Model of ReqlineExecutor.buildFullUrl: an empty or falsy query map
leaves the base url unchanged; otherwise the percent-encoded pairs are
joined with ampersands and appended after a question mark, or after an
ampersand when the base url already contains a question mark. -/
def buildFullUrl (baseUrl : String) (queryParams : Json) : String :=
  if !(jsonTruthy queryParams) || (jsObjectEntries queryParams).length = 0 then baseUrl
  else
    baseUrl ++ (if baseUrl.data.contains '?' then "&" else "?") ++
      String.intercalate "&" ((jsObjectEntries queryParams).map
        (fun kv => encodeURIComponent kv.1 ++ "=" ++ encodeURIComponent (jsToString kv.2)))

/-- The remote response object seen through the HTTP client: optional
statusCode and status fields and an optional data payload (`none`
models an absent/undefined field). -/
structure RemoteResponse where
  statusCode : Option Int
  status : Option Int
  data : Option Json

/-- How the awaited HTTP call settles: resolved, rejected with an error
carrying a remote response, or rejected with a pure transport error. -/
inductive HttpOutcome where
  | resolved (resp : RemoteResponse)
  | rejectedWithResponse (resp : RemoteResponse) (message : String)
  | rejectedTransport (message : String)

/-- The request half of an ExecutionResult. -/
structure RequestEcho where
  query : Json
  body : Json
  headers : Json
  full_url : String

/-- The response half of an ExecutionResult.  `http_status` is `none`
when the JS value would be undefined (both status fields falsy on the
error path). -/
structure ResponseRecord where
  http_status : Option Int
  duration : Int
  request_start_timestamp : Nat
  request_stop_timestamp : Nat
  response_data : Option Json

/-- The result shape returned by the executor. -/
structure ExecutionResult where
  request : RequestEcho
  response : ResponseRecord

/-- JS `a || b` on the optional status fields: an absent or zero value
falls through to the right operand. -/
def jsOrStatus (a b : Option Int) : Option Int :=
  match a with
  | some v => if v = 0 then b else some v
  | none => b

/-- JS `response.statusCode || response.status || 200` of the success path. -/
def jsStatusOr200 (a b : Option Int) : Int :=
  match jsOrStatus a b with
  | some v => if v = 0 then 200 else v
  | none => 200

/-- JS `error.response.data || null` of the remote-error path. -/
def jsOrNullData (d : Option Json) : Json :=
  match d with
  | some j => if jsonTruthy j then j else .null
  | none => .null

/-- Model of ReqlineExecutor.executeRequest.  The two `Date.now()`
readings and the settlement of the awaited call are external effects,
passed in as the `startTimestamp`/`stopTimestamp` parameters and the
`outcome` oracle; the orchestrator only calls the executor on validator
output, where `url` is present (theorem C4), so the `getD` default is
never exercised there. -/
def executeRequest (parsed : ParsedRequest) (outcome : HttpOutcome)
    (startTimestamp stopTimestamp : Nat) : Except AppError ExecutionResult :=
  let fullUrl := buildFullUrl (parsed.url.getD "") parsed.query
  let duration : Int := (stopTimestamp : Int) - (startTimestamp : Int)
  match outcome with
  | .resolved resp =>
    .ok {
      request := {
        query := parsed.query
        body := parsed.body
        headers := parsed.headers
        full_url := fullUrl }
      response := {
        http_status := some (jsStatusOr200 resp.statusCode resp.status)
        duration := duration
        request_start_timestamp := startTimestamp
        request_stop_timestamp := stopTimestamp
        response_data := resp.data } }
  | .rejectedWithResponse resp _ =>
    .ok {
      request := {
        query := parsed.query
        body := parsed.body
        headers := parsed.headers
        full_url := fullUrl }
      response := {
        http_status := jsOrStatus resp.statusCode resp.status
        duration := duration
        request_start_timestamp := startTimestamp
        request_stop_timestamp := stopTimestamp
        response_data := some (jsOrNullData resp.data) } }
  | .rejectedTransport msg =>
    .error ⟨.APPERR, "Request execution failed: " ++ msg⟩

/-- A concrete validated request used in witnesses. -/
def sampleParsed : ParsedRequest :=
  ⟨some "GET", some "https://example.com", .obj [], .obj [], .obj []⟩

/-- A concrete resolved remote response used in witnesses. -/
def sampleResponse : RemoteResponse :=
  ⟨some 200, none, none⟩

/-- The execution result of dispatching `sampleParsed` against
`sampleResponse` with clock readings 3 and 5. -/
def sampleResult : ExecutionResult :=
  ⟨⟨.obj [], .obj [], .obj [], "https://example.com"⟩,
   ⟨some 200, 2, 3, 5, none⟩⟩

/-! Helper lemmas about the string primitives. -/

theorem head?_dropWhile_false (p : Char → Bool) :
    ∀ (l : List Char) (c : Char), (l.dropWhile p).head? = some c → p c = false := by
  intro l
  induction l with
  | nil => intro c h; simp [List.dropWhile] at h
  | cons a t ih =>
    intro c h
    by_cases hp : p a
    · rw [List.dropWhile_cons_of_pos hp] at h
      exact ih c h
    · rw [List.dropWhile_cons_of_neg hp] at h
      simp only [List.head?_cons, Option.some.injEq] at h
      subst h
      simpa using hp

theorem getLast?_trimChars (l : List Char) (c : Char)
    (h : (trimChars l).getLast? = some c) : jsWhite c = false := by
  unfold trimChars at h
  rw [List.getLast?_reverse] at h
  exact head?_dropWhile_false jsWhite _ c h

theorem splitAtFirstSpace_eq :
    ∀ (l k v : List Char), splitAtFirstSpace l = some (k, v) → l = k ++ ' ' :: v := by
  intro l
  induction l with
  | nil => intro k v h; simp [splitAtFirstSpace] at h
  | cons a t ih =>
    intro k v h
    by_cases ha : a = ' '
    · subst ha
      unfold splitAtFirstSpace at h
      rw [if_pos rfl] at h
      injection h with h1
      injection h1 with hk hv
      subst hk; subst hv
      rfl
    · unfold splitAtFirstSpace at h
      rw [if_neg ha] at h
      rcases ht : splitAtFirstSpace t with _ | ⟨k1, v1⟩
      · rw [ht] at h; exact absurd h (by simp)
      · rw [ht] at h
        injection h with h1
        injection h1 with hk hv
        subst hk; subst hv
        have := ih k1 v1 ht
        simp [this]

theorem mem_dropWhile_of_mem (p : Char → Bool) :
    ∀ (l : List Char) (c : Char), c ∈ l → p c = false → c ∈ l.dropWhile p := by
  intro l
  induction l with
  | nil => intro c h _; simp at h
  | cons a t ih =>
    intro c h hc
    by_cases hp : p a
    · rw [List.dropWhile_cons_of_pos hp]
      rcases List.mem_cons.mp h with h1 | h1
      · subst h1; rw [hc] at hp; simp at hp
      · exact ih c h1 hc
    · rwa [List.dropWhile_cons_of_neg hp]

theorem mem_trimChars (l : List Char) (c : Char)
    (h : c ∈ l) (hc : jsWhite c = false) : c ∈ trimChars l := by
  unfold trimChars
  rw [List.mem_reverse]
  apply mem_dropWhile_of_mem jsWhite _ c _ hc
  rw [List.mem_reverse]
  exact mem_dropWhile_of_mem jsWhite l c h hc

theorem splitOnChar_ne_nil (sep : Char) : ∀ (l : List Char), splitOnChar sep l ≠ [] := by
  intro l
  cases l with
  | nil => simp [splitOnChar]
  | cons a t =>
    unfold splitOnChar
    rcases h : splitOnChar sep t with _ | ⟨s, ss⟩
    · simp
    · by_cases ha : a = sep <;> simp [ha]

/-! Helper lemmas about the validator. -/

theorem checkSpacingAt_ok (total : Nat) :
    ∀ (l : List (List Char)) (i : Nat), checkSpacingAt total i l = .ok () →
      ∀ (j : Nat) (hj : j < l.length),
        (0 < i + j → startsWithSpace (l.get ⟨j, hj⟩) = true) ∧
        (i + j < total - 1 → endsWithSpace (l.get ⟨j, hj⟩) = true) := by
  intro l
  induction l with
  | nil => intro i _ j hj; simp at hj
  | cons seg rest ih =>
    intro i hok j hj
    unfold checkSpacingAt at hok
    split at hok
    · exact absurd hok (by simp)
    · split at hok
      · exact absurd hok (by simp)
      · rename_i h1 h2
        cases j with
        | zero =>
          refine ⟨fun hpos => ?_, fun hlt => ?_⟩
          · by_cases hs : startsWithSpace seg = true
            · simpa using hs
            · exact absurd ⟨by simpa using hpos, by simpa using hs⟩ h1
          · by_cases hs : endsWithSpace seg = true
            · simpa using hs
            · exact absurd ⟨by simpa using hlt, by simpa using hs⟩ h2
        | succ j1 =>
          have hj1 : j1 < rest.length := by simpa using hj
          have := ih (i + 1) hok j1 hj1
          constructor
          · intro hpos
            have := (this).1 (by omega)
            simpa using this
          · intro hlt
            have := (this).2 (by omega)
            simpa using this

theorem parseSegmentParts_ok_no_double {seg : List Char} {parts : SegmentParts}
    (h : parseSegmentParts seg = .ok parts) : hasDoubleSpace seg = false := by
  unfold parseSegmentParts at h
  split at h
  · exact absurd h (by simp)
  · split at h
    · exact absurd h (by simp)
    · split at h
      · exact absurd h (by simp)
      · rename_i hd
        simpa using hd

theorem parseSegmentParts_ok_shape {seg : List Char} {parts : SegmentParts}
    (h : parseSegmentParts seg = .ok parts) :
    seg = parts.keyword ++ ' ' :: parts.value := by
  unfold parseSegmentParts at h
  split at h
  · exact absurd h (by simp)
  · rename_i k v hsplit
    split at h
    · exact absurd h (by simp)
    · split at h
      · exact absurd h (by simp)
      · injection h with h1
        subst h1
        exact splitAtFirstSpace_eq seg k v hsplit

theorem parseSegmentParts_value_ne_nil {x : List Char} {parts : SegmentParts}
    (h : parseSegmentParts (trimChars x) = .ok parts) : parts.value ≠ [] := by
  intro hv
  have hshape := parseSegmentParts_ok_shape h
  rw [hv] at hshape
  have hlast : (trimChars x).getLast? = some ' ' := by
    rw [hshape, List.getLast?_concat]
  have := getLast?_trimChars x ' ' hlast
  simp [jsWhite] at this

theorem splitByPipe_ok_inv {str : List Char} {segs : List (List Char)}
    (h : splitByPipe str = .ok segs) :
    str.contains '|' = true ∧
    checkSpacingAt (splitOnChar '|' str).length 0 (splitOnChar '|' str) = .ok () ∧
    segs = (splitOnChar '|' str).map trimChars := by
  unfold splitByPipe at h
  split at h
  · rename_i hpipe
    split at h
    · exact absurd h (by simp)
    · split at h
      · exact absurd h (by simp)
      · exact absurd h (by simp)
  · rename_i hpipe
    refine ⟨by simpa using hpipe, ?_⟩
    split at h
    · exact absurd h (by simp)
    · rename_i u hspace
      injection h with h1
      subst h1
      refine ⟨?_, rfl⟩
      cases u
      exact hspace

theorem processSegment_ok_cases {st : PState} {i : Nat} {seg : List Char} {st1 : PState}
    (h : processSegment st i seg = .ok st1) :
    ∃ parts, parseSegmentParts seg = .ok parts ∧
      ((parts.keyword = "HTTP".data ∧ st.httpFound = false ∧ i = 0 ∧
          st1 = { st with method := some (String.mk parts.value), httpFound := true }) ∨
       (parts.keyword = "URL".data ∧ st.urlFound = false ∧ i = 1 ∧
          st1 = { st with url := some (String.mk parts.value), urlFound := true }) ∨
       (st1.method = st.method ∧ st1.url = st.url ∧
          st1.httpFound = st.httpFound ∧ st1.urlFound = st.urlFound)) := by
  unfold processSegment at h
  split at h
  · exact absurd h (by simp)
  · split at h
    · exact absurd h (by simp)
    · rename_i parts hparts
      refine ⟨parts, hparts, ?_⟩
      split at h
      · rename_i hkw
        split at h
        · exact absurd h (by simp)
        · rename_i hhf
          split at h
          · exact absurd h (by simp)
          · rename_i hi
            split at h
            · exact absurd h (by simp)
            · injection h with h1
              exact Or.inl ⟨hkw, by simpa using hhf, by omega, h1.symm⟩
      · rename_i hkw1
        split at h
        · rename_i hkw
          split at h
          · exact absurd h (by simp)
          · rename_i huf
            split at h
            · exact absurd h (by simp)
            · rename_i hi
              split at h
              · exact absurd h (by simp)
              · injection h with h1
                exact Or.inr (Or.inl ⟨hkw, by simpa using huf, by omega, h1.symm⟩)
        · split at h
          · split at h
            · exact absurd h (by simp)
            · injection h with h1
              subst h1
              exact Or.inr (Or.inr ⟨rfl, rfl, rfl, rfl⟩)
          · split at h
            · split at h
              · exact absurd h (by simp)
              · injection h with h1
                subst h1
                exact Or.inr (Or.inr ⟨rfl, rfl, rfl, rfl⟩)
            · split at h
              · split at h
                · exact absurd h (by simp)
                · injection h with h1
                  subst h1
                  exact Or.inr (Or.inr ⟨rfl, rfl, rfl, rfl⟩)
              · exact absurd h (by simp)

theorem processSegment_preserves {st st1 : PState} {i : Nat} {seg : List Char}
    (h : processSegment st i seg = .ok st1) :
    (st.httpFound = true → st1.httpFound = true ∧ st1.method = st.method) ∧
    (st.urlFound = true → st1.urlFound = true ∧ st1.url = st.url) := by
  obtain ⟨parts, -, hc⟩ := processSegment_ok_cases h
  rcases hc with ⟨-, hf, -, hst⟩ | ⟨-, hf, -, hst⟩ | ⟨h1, h2, h3, h4⟩
  · subst hst
    refine ⟨fun hh => ?_, fun hu => ?_⟩
    · rw [hh] at hf; cases hf
    · exact ⟨hu, rfl⟩
  · subst hst
    refine ⟨fun hh => ?_, fun hu => ?_⟩
    · exact ⟨hh, rfl⟩
    · rw [hu] at hf; cases hf
  · refine ⟨fun hh => ⟨h3.trans hh, h1⟩, fun hu => ⟨h4.trans hu, h2⟩⟩

theorem loop_preserves {segs : List (List Char)} :
    ∀ {st st1 : PState} {i : Nat}, parseSegmentsLoop st i segs = .ok st1 →
    (st.httpFound = true → st1.httpFound = true ∧ st1.method = st.method) ∧
    (st.urlFound = true → st1.urlFound = true ∧ st1.url = st.url) := by
  induction segs with
  | nil =>
    intro st st1 i h
    unfold parseSegmentsLoop at h
    injection h with h1
    subst h1
    exact ⟨fun hh => ⟨hh, rfl⟩, fun hu => ⟨hu, rfl⟩⟩
  | cons seg rest ih =>
    intro st st1 i h
    unfold parseSegmentsLoop at h
    split at h
    · exact absurd h (by simp)
    · rename_i st2 hstep
      have p := processSegment_preserves hstep
      have l := ih h
      refine ⟨fun hh => ?_, fun hu => ?_⟩
      · obtain ⟨h2f, h2m⟩ := p.1 hh
        obtain ⟨h1f, h1m⟩ := l.1 h2f
        exact ⟨h1f, h1m.trans h2m⟩
      · obtain ⟨h2f, h2m⟩ := p.2 hu
        obtain ⟨h1f, h1m⟩ := l.2 h2f
        exact ⟨h1f, h1m.trans h2m⟩

theorem loop_no_http {segs : List (List Char)} :
    ∀ {st st1 : PState} {i : Nat}, parseSegmentsLoop st i segs = .ok st1 →
      st.httpFound = false → 1 ≤ i → st1.httpFound = false := by
  induction segs with
  | nil =>
    intro st st1 i h hf _
    unfold parseSegmentsLoop at h
    injection h with h1
    subst h1
    exact hf
  | cons seg rest ih =>
    intro st st1 i h hf hi
    unfold parseSegmentsLoop at h
    split at h
    · exact absurd h (by simp)
    · rename_i st2 hstep
      obtain ⟨parts, -, hc⟩ := processSegment_ok_cases hstep
      rcases hc with ⟨-, -, hi0, -⟩ | ⟨-, -, -, hst⟩ | ⟨-, -, h3, -⟩
      · omega
      · exact ih h (by subst hst; simpa using hf) (by omega)
      · exact ih h (h3.trans hf) (by omega)

theorem loop_no_url {segs : List (List Char)} :
    ∀ {st st1 : PState} {i : Nat}, parseSegmentsLoop st i segs = .ok st1 →
      st.urlFound = false → 2 ≤ i → st1.urlFound = false := by
  induction segs with
  | nil =>
    intro st st1 i h hf _
    unfold parseSegmentsLoop at h
    injection h with h1
    subst h1
    exact hf
  | cons seg rest ih =>
    intro st st1 i h hf hi
    unfold parseSegmentsLoop at h
    split at h
    · exact absurd h (by simp)
    · rename_i st2 hstep
      obtain ⟨parts, -, hc⟩ := processSegment_ok_cases hstep
      rcases hc with ⟨-, -, -, hst⟩ | ⟨-, -, hi1, -⟩ | ⟨-, -, -, h4⟩
      · exact ih h (by subst hst; simpa using hf) (by omega)
      · omega
      · exact ih h (h4.trans hf) (by omega)

theorem loop_all_parts {segs : List (List Char)} :
    ∀ {st st1 : PState} {i : Nat}, parseSegmentsLoop st i segs = .ok st1 →
      ∀ seg ∈ segs, ∃ parts, parseSegmentParts seg = .ok parts := by
  induction segs with
  | nil => intro st st1 i _ seg hmem; simp at hmem
  | cons seg0 rest ih =>
    intro st st1 i h seg hmem
    unfold parseSegmentsLoop at h
    split at h
    · exact absurd h (by simp)
    · rename_i st2 hstep
      rcases List.mem_cons.mp hmem with h1 | h1
      · subst h1
        obtain ⟨parts, hparts, -⟩ := processSegment_ok_cases hstep
        exact ⟨parts, hparts⟩
      · exact ih h seg h1

theorem parseSegments_ok_structure {segs : List (List Char)} {r : ParsedRequest}
    (h : parseSegments segs = .ok r) :
    ∃ seg0 seg1 rest v0 v1,
      segs = seg0 :: seg1 :: rest ∧
      parseSegmentParts seg0 = .ok ⟨"HTTP".data, v0⟩ ∧
      parseSegmentParts seg1 = .ok ⟨"URL".data, v1⟩ ∧
      r.method = some (String.mk v0) ∧ r.url = some (String.mk v1) := by
  unfold parseSegments at h
  split at h
  · exact absurd h (by simp)
  · rename_i st hloop
    split at h
    · exact absurd h (by simp)
    · rename_i hhf
      split at h
      · exact absurd h (by simp)
      · rename_i huf
        injection h with h1
        have hhf1 : st.httpFound = true := by
          cases hb : st.httpFound
          · exact absurd hb hhf
          · rfl
        have huf1 : st.urlFound = true := by
          cases hb : st.urlFound
          · exact absurd hb huf
          · rfl
        cases segs with
        | nil =>
          unfold parseSegmentsLoop at hloop
          injection hloop with h2
          rw [← h2] at hhf1
          simp [initState] at hhf1
        | cons seg0 rest0 =>
          unfold parseSegmentsLoop at hloop
          split at hloop
          · exact absurd hloop (by simp)
          · rename_i st2 hstep
            have hst2http : st2.httpFound = true := by
              cases hb : st2.httpFound
              · rw [loop_no_http hloop hb (by omega)] at hhf1; cases hhf1
              · rfl
            obtain ⟨parts, hparts, hc⟩ := processSegment_ok_cases hstep
            rcases hc with ⟨hkw, -, -, hst⟩ | ⟨-, -, hi1, -⟩ | ⟨-, -, hhfp, -⟩
            · cases rest0 with
              | nil =>
                unfold parseSegmentsLoop at hloop
                injection hloop with h2
                rw [← h2] at huf1
                rw [hst] at huf1
                simp [initState] at huf1
              | cons seg1 rest1 =>
                unfold parseSegmentsLoop at hloop
                split at hloop
                · exact absurd hloop (by simp)
                · rename_i st3 hstep2
                  have hst3url : st3.urlFound = true := by
                    cases hb : st3.urlFound
                    · rw [loop_no_url hloop hb (by omega)] at huf1; cases huf1
                    · rfl
                  obtain ⟨parts2, hparts2, hc2⟩ := processSegment_ok_cases hstep2
                  rcases hc2 with ⟨-, hhf2, -, -⟩ | ⟨hkw2, -, -, hst3⟩ | ⟨-, -, -, hufp2⟩
                  · rw [hst] at hhf2; simp at hhf2
                  · refine ⟨seg0, seg1, rest1, parts.value, parts2.value, rfl, ?_, ?_, ?_, ?_⟩
                    · rw [← hkw]; exact hparts
                    · rw [← hkw2]; exact hparts2
                    · have hpre := loop_preserves hloop
                      have hm3 : st3.method = some (String.mk parts.value) := by
                        rw [hst3, hst]
                      have hf3 : st3.httpFound = true := by
                        rw [hst3, hst]
                      obtain ⟨-, hmfin⟩ := hpre.1 hf3
                      rw [← h1]
                      show st.method = some (String.mk parts.value)
                      rw [hmfin, hm3]
                    · have hpre := loop_preserves hloop
                      have hu3 : st3.url = some (String.mk parts2.value) := by
                        rw [hst3]
                      obtain ⟨-, hufin⟩ := hpre.2 hst3url
                      rw [← h1]
                      show st.url = some (String.mk parts2.value)
                      rw [hufin, hu3]
                  · rw [hufp2, hst] at hst3url; simp [initState] at hst3url
            · omega
            · rw [hhfp] at hst2http; simp [initState] at hst2http

theorem parseReqlineSyntax_ok_inv {s : String} {r : ParsedRequest}
    (h : parseReqlineSyntax s = .ok r) :
    trimChars s.data ≠ [] ∧
    ∃ segs, splitByPipe (trimChars s.data) = .ok segs ∧ parseSegments segs = .ok r := by
  unfold parseReqlineSyntax at h
  split at h
  · exact absurd h (by simp)
  · rename_i hne
    refine ⟨hne, ?_⟩
    split at h
    · exact absurd h (by simp)
    · rename_i segs hsegs
      exact ⟨segs, hsegs, h⟩

theorem parseSegments_ok_loop {segs : List (List Char)} {r : ParsedRequest}
    (h : parseSegments segs = .ok r) :
    ∃ st, parseSegmentsLoop initState 0 segs = .ok st := by
  unfold parseSegments at h
  split at h
  · exact absurd h (by simp)
  · rename_i st hloop
    exact ⟨st, hloop⟩

/-! Claim theorems. -/

/-- Claim C2: parsing the round-trip input succeeds with method GET, the
example url, query a=1, empty headers and empty body, and executing that
parsed request (with any resolved network outcome and any clock readings)
yields a result whose request.full_url is the url with the encoded query
appended after a question mark. -/
theorem C2_roundtrip :
    parseReqlineSyntax "HTTP GET | URL https://example.com | QUERY \x7b\"a\":1\x7d" =
      .ok ⟨some "GET", some "https://example.com", .obj [], .obj [("a", .num "1")], .obj []⟩ ∧
    ∀ (resp : RemoteResponse) (s t : Nat), ∃ res,
      executeRequest ⟨some "GET", some "https://example.com", .obj [],
          .obj [("a", .num "1")], .obj []⟩ (.resolved resp) s t = .ok res ∧
      res.request.full_url = "https://example.com?a=1" :=
  ⟨rfl, fun _ _ _ => ⟨_, rfl, rfl⟩⟩

/-- Claim C7: the input with a lowercase keyword and uppercase method
fails with the keywords-must-be-uppercase message, which is distinct from
the method-case message, because the keyword-case check runs first. -/
theorem C7_keyword_case_first :
    parseReqlineSyntax "http GET | URL https://example.com" =
      .error ⟨.VALIDATIONERR, KEYWORDS_MUST_BE_UPPERCASE⟩ ∧
    KEYWORDS_MUST_BE_UPPERCASE ≠ HTTP_METHOD_MUST_BE_UPPERCASE :=
  ⟨rfl, by decide⟩

/-- Claim C1 counterexample: an input with two spaces on the left of the
pipe (hence a double-space run surviving in the raw string) validates
successfully, refuting the claim that every such input is rejected. -/
theorem C1_counterexample :
    parseReqlineSyntax "HTTP GET  | URL https://example.com" =
      .ok ⟨some "GET", some "https://example.com", .obj [], .obj [], .obj []⟩ ∧
    hasDoubleSpace (("HTTP GET  | URL https://example.com").data) = true ∧
    (("HTTP GET  | URL https://example.com").data).contains '|' = true :=
  ⟨rfl, rfl, rfl⟩

/-- Claim C1 (amended): for every input containing a pipe that validates
successfully, every pipe boundary has at least one space on each side
(each non-first raw segment starts with a space and each non-last raw
segment ends with a space) and no trimmed segment retains a double
space; runs of extra spaces adjacent to a pipe are absorbed by the
per-segment trim and accepted. -/
theorem C1_amended (s : String) (r : ParsedRequest)
    (_hpipe : '|' ∈ s.data) (h : parseReqlineSyntax s = .ok r) :
    (∀ (j : Nat) (hj : j < (splitOnChar '|' (trimChars s.data)).length),
      (0 < j → startsWithSpace ((splitOnChar '|' (trimChars s.data)).get ⟨j, hj⟩) = true) ∧
      (j + 1 < (splitOnChar '|' (trimChars s.data)).length →
        endsWithSpace ((splitOnChar '|' (trimChars s.data)).get ⟨j, hj⟩) = true)) ∧
    (∀ seg ∈ splitOnChar '|' (trimChars s.data), hasDoubleSpace (trimChars seg) = false) := by
  obtain ⟨hne, segs, hsplit, hparse⟩ := parseReqlineSyntax_ok_inv h
  obtain ⟨hcont, hspace, hsegs⟩ := splitByPipe_ok_inv hsplit
  constructor
  · intro j hj
    have hcs := checkSpacingAt_ok (splitOnChar '|' (trimChars s.data)).length
      (splitOnChar '|' (trimChars s.data)) 0 hspace j hj
    refine ⟨fun hpos => hcs.1 (by omega), fun hlt => hcs.2 (by omega)⟩
  · intro seg hmem
    have hmem2 : trimChars seg ∈ segs := by
      rw [hsegs]
      exact List.mem_map_of_mem _ hmem
    obtain ⟨st, hloop⟩ := parseSegments_ok_loop hparse
    obtain ⟨parts, hparts⟩ := loop_all_parts hloop (trimChars seg) hmem2
    exact parseSegmentParts_ok_no_double hparts

/-- Claim C1 witness: the amended theorem applied to a concrete
accepted input containing a pipe. -/
theorem C1_amended_witness :
    hasDoubleSpace (trimChars ((" URL https://example.com").data)) = false :=
  (C1_amended "HTTP GET | URL https://example.com"
      ⟨some "GET", some "https://example.com", .obj [], .obj [], .obj []⟩
      (by decide) rfl).2 ((" URL https://example.com").data) (by decide)

/-- Claim C3 counterexample: an input containing a pipe in which neither
HTTP nor http occurs as a space-delimited word fails with the
URL-must-be-second message, not the missing-HTTP-keyword message,
refuting the claim for inputs with a pipe. -/
theorem C3_counterexample :
    parseReqlineSyntax "URL https://x | QUERY \x7b\x7d" =
      .error ⟨.VALIDATIONERR, URL_MUST_BE_SECOND⟩ ∧
    URL_MUST_BE_SECOND ≠ MISSING_HTTP_KEYWORD ∧
    (splitOnChar ' ' (trimChars (("URL https://x | QUERY \x7b\x7d").data))).contains
      (("HTTP").data) = false ∧
    (splitOnChar ' ' (trimChars (("URL https://x | QUERY \x7b\x7d").data))).contains
      (("http").data) = false :=
  ⟨rfl, by decide, rfl, rfl⟩

/-- Claim C3 (amended): for every input whose trimmed form is non-empty
and contains no pipe character, if neither HTTP nor http occurs as a
space-delimited word of the trimmed input, validation fails with the
missing-HTTP-keyword message; inputs containing a pipe can fail with
other messages instead. -/
theorem C3_amended (s : String)
    (hne : trimChars s.data ≠ [])
    (hnp : (trimChars s.data).contains '|' = false)
    (h1 : (splitOnChar ' ' (trimChars s.data)).contains (("HTTP").data) = false)
    (h2 : (splitOnChar ' ' (trimChars s.data)).contains (("http").data) = false) :
    parseReqlineSyntax s = .error ⟨.VALIDATIONERR, MISSING_HTTP_KEYWORD⟩ := by
  have hsb : splitByPipe (trimChars s.data) =
      .error ⟨.VALIDATIONERR, MISSING_HTTP_KEYWORD⟩ := by
    unfold splitByPipe
    rw [hnp, h1, h2]
    simp
  unfold parseReqlineSyntax
  rw [if_neg hne, hsb]

/-- Claim C3 witness: the amended theorem applied to a concrete
pipe-free input without the HTTP word. -/
theorem C3_amended_witness :
    parseReqlineSyntax "URL https://x" = .error ⟨.VALIDATIONERR, MISSING_HTTP_KEYWORD⟩ :=
  C3_amended "URL https://x" (by decide) rfl rfl rfl

/-- Claim C4 counterexample: an input whose third segment is an HTTP
segment (index 2, not 0) fails with the duplicate-HTTP message rather
than the position-specific HTTP-must-be-first message, refuting the
claim that a wrongly positioned HTTP segment always draws the
position-specific message. -/
theorem C4_counterexample :
    parseReqlineSyntax "HTTP GET | URL https://example.com | HTTP GET" =
      .error ⟨.VALIDATIONERR, DUPLICATE_HTTP_KEYWORD⟩ ∧
    DUPLICATE_HTTP_KEYWORD ≠ HTTP_MUST_BE_FIRST ∧
    (((splitOnChar '|' (trimChars (("HTTP GET | URL https://example.com | HTTP GET").data))).map
        trimChars)[2]?) = some (("HTTP GET").data) :=
  ⟨rfl, by decide, rfl⟩

/-- Claim C4 (amended): every successfully validated input has an HTTP
segment at index 0 and a URL segment at index 1 with method and url
populated from them; a first-occurrence HTTP segment reached at a
non-zero index fails immediately with HTTP-must-be-first, and a
first-occurrence URL segment reached at an index other than 1 fails
immediately with URL-must-be-second; a repeated HTTP or URL keyword
instead fails with the corresponding duplicate-keyword message. -/
theorem C4_amended :
    (∀ (s : String) (r : ParsedRequest), parseReqlineSyntax s = .ok r →
      r.method.isSome = true ∧ r.url.isSome = true ∧
      ∃ segs seg0 seg1 rest v0 v1,
        splitByPipe (trimChars s.data) = .ok segs ∧
        segs = seg0 :: seg1 :: rest ∧
        parseSegmentParts seg0 = .ok ⟨("HTTP").data, v0⟩ ∧
        parseSegmentParts seg1 = .ok ⟨("URL").data, v1⟩ ∧
        r.method = some (String.mk v0) ∧ r.url = some (String.mk v1)) ∧
    (∀ (st : PState) (i : Nat) (seg : List Char) (parts : SegmentParts),
      st.httpFound = false → parseSegmentParts seg = .ok parts →
      parts.keyword = ("HTTP").data → i ≠ 0 →
      processSegment st i seg = .error ⟨.VALIDATIONERR, HTTP_MUST_BE_FIRST⟩) ∧
    (∀ (st : PState) (i : Nat) (seg : List Char) (parts : SegmentParts),
      st.urlFound = false → parseSegmentParts seg = .ok parts →
      parts.keyword = ("URL").data → i ≠ 1 →
      processSegment st i seg = .error ⟨.VALIDATIONERR, URL_MUST_BE_SECOND⟩) := by
  refine ⟨?_, ?_, ?_⟩
  · intro s r h
    obtain ⟨hne, segs, hsplit, hparse⟩ := parseReqlineSyntax_ok_inv h
    obtain ⟨seg0, seg1, rest, v0, v1, hsegs, h0, h1, hm, hu⟩ :=
      parseSegments_ok_structure hparse
    refine ⟨by rw [hm]; rfl, by rw [hu]; rfl,
      segs, seg0, seg1, rest, v0, v1, hsplit, hsegs, h0, h1, hm, hu⟩
  · intro st i seg parts hf hparts hkw hi
    have hne : seg ≠ [] := by
      rw [parseSegmentParts_ok_shape hparts]
      simp
    unfold processSegment
    rw [if_neg hne, hparts]
    simp [hkw, hf, hi]
  · intro st i seg parts hf hparts hkw hi
    have hne : seg ≠ [] := by
      rw [parseSegmentParts_ok_shape hparts]
      simp
    have hkne : (("URL").data : List Char) ≠ ("HTTP").data := by decide
    unfold processSegment
    rw [if_neg hne, hparts]
    simp [hkw, hf, hi, hkne]

/-- Claim C4 witness: the amended theorem applied at concrete inputs
covering all three conjuncts. -/
theorem C4_amended_witness :
    (ParsedRequest.method
        ⟨some "GET", some "https://example.com", .obj [], .obj [], .obj []⟩).isSome = true ∧
    processSegment initState 2 (("HTTP GET").data) =
      .error ⟨.VALIDATIONERR, HTTP_MUST_BE_FIRST⟩ ∧
    processSegment initState 0 (("URL https://example.com").data) =
      .error ⟨.VALIDATIONERR, URL_MUST_BE_SECOND⟩ :=
  ⟨(C4_amended.1 "HTTP GET | URL https://example.com" _ rfl).1,
   C4_amended.2.1 initState 2 (("HTTP GET").data) ⟨("HTTP").data, ("GET").data⟩
     rfl rfl rfl (by decide),
   C4_amended.2.2 initState 0 (("URL https://example.com").data)
     ⟨("URL").data, ("https://example.com").data⟩ rfl rfl rfl (by decide)⟩

/-- Claim C5: buildFullUrl is the identity on an empty query mapping;
with query a=1 it appends ?a=1 when the base url has no question mark
and &a=1 when it has one; and in general every key and value is
percent-encoded and the pairs are joined with ampersands. -/
theorem C5_buildFullUrl :
    (∀ url : String, buildFullUrl url (.obj []) = url) ∧
    (∀ url : String, url.data.contains '?' = false →
      buildFullUrl url (.obj [("a", .num "1")]) = url ++ "?a=1") ∧
    (∀ url : String, url.data.contains '?' = true →
      buildFullUrl url (.obj [("a", .num "1")]) = url ++ "&a=1") ∧
    (∀ (url : String) (kvs : List (String × Json)), kvs ≠ [] →
      buildFullUrl url (.obj kvs) =
        url ++ (if url.data.contains '?' then "&" else "?") ++
          String.intercalate "&" (kvs.map (fun kv =>
            encodeURIComponent kv.1 ++ "=" ++
              encodeURIComponent (jsToString kv.2)))) := by
  refine ⟨?_, ?_, ?_, ?_⟩
  · intro url
    unfold buildFullUrl
    rw [if_pos]
    simp [jsonTruthy, jsObjectEntries]
  · intro url h
    unfold buildFullUrl
    rw [if_neg (by simp [jsonTruthy, jsObjectEntries]), h]
    rw [String.append_assoc]
    rfl
  · intro url h
    unfold buildFullUrl
    rw [if_neg (by simp [jsonTruthy, jsObjectEntries]), h]
    rw [String.append_assoc]
    rfl
  · intro url kvs hkvs
    unfold buildFullUrl
    rw [if_neg]
    · rfl
    · simp [jsonTruthy, jsObjectEntries, hkvs]

/-- Claim C5 witness: the three shapes evaluated at concrete urls. -/
theorem C5_buildFullUrl_witness :
    buildFullUrl "https://example.com" (.obj []) = "https://example.com" ∧
    buildFullUrl "https://example.com" (.obj [("a", .num "1")]) =
      "https://example.com" ++ "?a=1" ∧
    buildFullUrl "https://example.com?x=2" (.obj [("a", .num "1")]) =
      "https://example.com?x=2" ++ "&a=1" ∧
    buildFullUrl "https://example.com" (.obj [("a", .num "1")]) =
      "https://example.com" ++
        (if ("https://example.com").data.contains '?' then "&" else "?") ++
        String.intercalate "&" (([(("a" : String), Json.num "1")]).map (fun kv =>
          encodeURIComponent kv.1 ++ "=" ++ encodeURIComponent (jsToString kv.2))) :=
  ⟨C5_buildFullUrl.1 "https://example.com",
   C5_buildFullUrl.2.1 "https://example.com" rfl,
   C5_buildFullUrl.2.2.1 "https://example.com?x=2" rfl,
   C5_buildFullUrl.2.2.2 "https://example.com" [("a", .num "1")] (by simp)⟩

/-- Claim C6: a rejection carrying a remote response with a non-zero
status code returns normally in the same result shape, capturing that
status and the (null-coalesced) payload; a rejection with no remote
response raises an APPERR execution failure, whose code differs from the
validator's VALIDATIONERR, and is never returned as an ok result. -/
theorem C6_error_paths :
    (∀ (parsed : ParsedRequest) (resp : RemoteResponse) (msg : String)
        (s t : Nat) (v : Int),
      resp.statusCode = some v → v ≠ 0 → ∃ res,
        executeRequest parsed (.rejectedWithResponse resp msg) s t = .ok res ∧
        res.response.http_status = some v ∧
        res.response.response_data = some (jsOrNullData resp.data) ∧
        res.request.full_url = buildFullUrl (parsed.url.getD "") parsed.query) ∧
    (∀ (parsed : ParsedRequest) (msg : String) (s t : Nat),
      executeRequest parsed (.rejectedTransport msg) s t =
        .error ⟨.APPERR, "Request execution failed: " ++ msg⟩ ∧
      ∀ res, executeRequest parsed (.rejectedTransport msg) s t ≠ .ok res) ∧
    ErrorCode.APPERR ≠ ErrorCode.VALIDATIONERR := by
  refine ⟨?_, ?_, by decide⟩
  · intro parsed resp msg s t v hv hnz
    refine ⟨_, rfl, ?_, rfl, rfl⟩
    show jsOrStatus resp.statusCode resp.status = some v
    rw [hv]
    unfold jsOrStatus
    simp [hnz]
  · intro parsed msg s t
    refine ⟨rfl, fun res h => ?_⟩
    simp [executeRequest] at h

/-- Claim C6 witness: the theorem applied at a concrete request, a
concrete 404 remote-error rejection, and a concrete transport failure. -/
theorem C6_error_paths_witness :
    (executeRequest sampleParsed
        (.rejectedWithResponse ⟨some 404, none, none⟩ "bad") 3 5).isOk = true ∧
    executeRequest sampleParsed (.rejectedTransport "boom") 3 5 =
      .error ⟨.APPERR, "Request execution failed: boom"⟩ := by
  obtain ⟨res, h1, -, -, -⟩ :=
    C6_error_paths.1 sampleParsed ⟨some 404, none, none⟩ "bad" 3 5 404 rfl (by decide)
  exact ⟨by rw [h1]; rfl, (C6_error_paths.2.1 sampleParsed "boom" 3 5).1⟩

/-- Claim C8 counterexample: with clock readings start=5 and stop=3
(the wall clock stepping backwards between the two Date.now calls), the
executor returns duration -2, a negative value, refuting the claim that
duration is always non-negative. -/
theorem C8_counterexample :
    (executeRequest sampleParsed (.resolved sampleResponse) 5 3).map
      (fun res => res.response.duration) = .ok (-2) ∧ (-2 : Int) < 0 :=
  ⟨rfl, by decide⟩

/-- Claim C8 (amended): on both ok-producing paths the duration equals
exactly the stop timestamp minus the start timestamp, the recorded
timestamps are the two (non-negative) clock readings, and the duration
is non-negative whenever the stop reading is not below the start
reading; the code does not clamp a backwards clock step. -/
theorem C8_amended (parsed : ParsedRequest) (outcome : HttpOutcome)
    (s t : Nat) (res : ExecutionResult)
    (h : executeRequest parsed outcome s t = .ok res) :
    res.response.duration =
      (res.response.request_stop_timestamp : Int) -
        (res.response.request_start_timestamp : Int) ∧
    res.response.request_start_timestamp = s ∧
    res.response.request_stop_timestamp = t ∧
    (s ≤ t → 0 ≤ res.response.duration) := by
  cases outcome with
  | resolved resp =>
    injection h with h1
    subst h1
    refine ⟨rfl, rfl, rfl, fun hst => ?_⟩
    show (0 : Int) ≤ (t : Int) - (s : Int)
    omega
  | rejectedWithResponse resp msg =>
    injection h with h1
    subst h1
    refine ⟨rfl, rfl, rfl, fun hst => ?_⟩
    show (0 : Int) ≤ (t : Int) - (s : Int)
    omega
  | rejectedTransport msg =>
    simp [executeRequest] at h

/-- Claim C8 witness: the amended theorem applied to a concrete
execution with clock readings 3 and 5. -/
theorem C8_amended_witness : (0 : Int) ≤ sampleResult.response.duration :=
  (C8_amended sampleParsed (.resolved sampleResponse) 3 5 sampleResult rfl).2.2.2
    (by decide)

/-- Claim C9: parseJsonValue returns whatever JSON.parse produces with
no object-shape check, each of the HEADERS, QUERY and BODY dispatch arms
assigns the parsed value directly to the corresponding field, and in
particular the input with BODY 5 validates with body equal to the JSON
number 5. -/
theorem C9_json_any_value :
    parseReqlineSyntax "HTTP GET | URL https://example.com | BODY 5" =
      .ok ⟨some "GET", some "https://example.com", .obj [], .obj [], .num "5"⟩ ∧
    (∀ (v : List Char) (fld : String) (j : Json), jsonParseChars v = some j →
      parseJsonValue v fld = .ok j) ∧
    (∀ (st : PState) (i : Nat) (seg : List Char) (v : List Char) (j : Json),
      parseSegmentParts seg = .ok ⟨("HEADERS").data, v⟩ → jsonParseChars v = some j →
      processSegment st i seg = .ok { st with headers := j }) ∧
    (∀ (st : PState) (i : Nat) (seg : List Char) (v : List Char) (j : Json),
      parseSegmentParts seg = .ok ⟨("QUERY").data, v⟩ → jsonParseChars v = some j →
      processSegment st i seg = .ok { st with query := j }) ∧
    (∀ (st : PState) (i : Nat) (seg : List Char) (v : List Char) (j : Json),
      parseSegmentParts seg = .ok ⟨("BODY").data, v⟩ → jsonParseChars v = some j →
      processSegment st i seg = .ok { st with body := j }) := by
  have hjson : ∀ (v : List Char) (fld : String) (j : Json), jsonParseChars v = some j →
      parseJsonValue v fld = .ok j := by
    intro v fld j hj
    unfold parseJsonValue
    rw [hj]
  refine ⟨rfl, hjson, ?_, ?_, ?_⟩
  · intro st i seg v j hparts hj
    have hne : seg ≠ [] := by
      rw [parseSegmentParts_ok_shape hparts]
      simp
    have k1 : (("HEADERS").data : List Char) ≠ ("HTTP").data := by decide
    have k2 : (("HEADERS").data : List Char) ≠ ("URL").data := by decide
    unfold processSegment
    rw [if_neg hne, hparts]
    simp [k1, k2, hjson v ("HEADERS") j hj]
  · intro st i seg v j hparts hj
    have hne : seg ≠ [] := by
      rw [parseSegmentParts_ok_shape hparts]
      simp
    have k1 : (("QUERY").data : List Char) ≠ ("HTTP").data := by decide
    have k2 : (("QUERY").data : List Char) ≠ ("URL").data := by decide
    have k3 : (("QUERY").data : List Char) ≠ ("HEADERS").data := by decide
    unfold processSegment
    rw [if_neg hne, hparts]
    simp [k1, k2, k3, hjson v ("QUERY") j hj]
  · intro st i seg v j hparts hj
    have hne : seg ≠ [] := by
      rw [parseSegmentParts_ok_shape hparts]
      simp
    have k1 : (("BODY").data : List Char) ≠ ("HTTP").data := by decide
    have k2 : (("BODY").data : List Char) ≠ ("URL").data := by decide
    have k3 : (("BODY").data : List Char) ≠ ("HEADERS").data := by decide
    have k4 : (("BODY").data : List Char) ≠ ("QUERY").data := by decide
    unfold processSegment
    rw [if_neg hne, hparts]
    simp [k1, k2, k3, k4, hjson v ("BODY") j hj]

/-- Claim C9 witness: the universal conjuncts applied to the concrete
BODY segment with the non-object JSON value 5. -/
theorem C9_json_any_value_witness :
    parseJsonValue (("5").data) ("BODY") = .ok (.num "5") ∧
    processSegment initState 2 (("BODY 5").data) =
      .ok { initState with body := .num "5" } :=
  ⟨C9_json_any_value.2.1 (("5").data) ("BODY") (.num "5") rfl,
   C9_json_any_value.2.2.2.2 initState 2 (("BODY 5").data) (("5").data) (.num "5")
     rfl rfl⟩

/-- Claim C10: every segment handed to the parseSegments loop is a
trimmed string; for a trimmed segment a successful keyword/value split
always has a non-empty value (a valueless keyword already failed with
missing-space-after-keyword); and on non-empty values validateUrl agrees
with the variant lacking the initial empty-value guard, so that guard is
unreachable under parser invocation. -/
theorem C10_validateUrl_nonempty :
    (∀ (str : List Char) (segs : List (List Char)), splitByPipe str = .ok segs →
      ∀ seg ∈ segs, ∃ x, seg = trimChars x) ∧
    (∀ (x : List Char) (parts : SegmentParts),
      parseSegmentParts (trimChars x) = .ok parts → parts.value ≠ []) ∧
    (∀ v : List Char, v ≠ [] →
      validateUrl v = validateUrlAssumingValue v) := by
  refine ⟨?_, ?_, ?_⟩
  · intro str segs hsplit seg hmem
    obtain ⟨-, -, hsegs⟩ := splitByPipe_ok_inv hsplit
    rw [hsegs] at hmem
    obtain ⟨x, -, hx⟩ := List.mem_map.mp hmem
    exact ⟨x, hx.symm⟩
  · intro x parts hparts
    exact parseSegmentParts_value_ne_nil hparts
  · intro v hv
    unfold validateUrl validateUrlAssumingValue
    rw [if_neg hv]

/-- Claim C10 witness: the three conjuncts applied at concrete parser
inputs and a concrete non-empty url value. -/
theorem C10_validateUrl_nonempty_witness :
    (∃ x, (("HTTP GET").data : List Char) = trimChars x) ∧
    (("https://example.com").data : List Char) ≠ [] ∧
    validateUrl (("https://example.com").data) =
      validateUrlAssumingValue (("https://example.com").data) :=
  ⟨C10_validateUrl_nonempty.1 (("HTTP GET | URL https://example.com").data) _ rfl
     (("HTTP GET").data) (by decide),
   C10_validateUrl_nonempty.2.1 (("URL https://example.com").data)
     ⟨("URL").data, ("https://example.com").data⟩ rfl,
   C10_validateUrl_nonempty.2.2 (("https://example.com").data) (by decide)⟩

end Reqline
